import Mathlib

/-!
A shallow embedding of the navigation-and-command engine of the Wayfinder
terminal directory browser (`src/main.rs`), together with theorems that
settle the specification's claims about it.

Modelling conventions:
* Pure state (`App`, `InputMode`, `FileEntry`, ...) is translated field by
  field from the Rust structs; machine integers that cannot overflow in
  practice (`usize` counters, indices) become `Nat`, the `isize` movement
  delta becomes `Int` with `Int.emod` standing for `isize::rem_euclid`.
* The preview builder performs file I/O, so every function that calls
  `update_preview` takes the builder as an explicit parameter
  `bp : BuildPreview`; its result is stored verbatim, as in the source.
* Filesystem effects are modelled by explicit state passing over small
  abstract filesystem states: an association list of names for the current
  directory (rename), a list of extant paths (delete), and a
  source-present/destination-present record plus a success oracle and an
  operation trace for move, which is what the move claim is about.
* Fallible operations return `Except String`, mirroring `anyhow::Result`
  with stringized messages; format strings are rendered by concatenation.
-/

/-- One directory child, mirroring `struct FileEntry`: name, directory
flag, optional size (present only for files) and optional modification
time (abstracted to a number). -/
structure FileEntry where
  name : String
  is_dir : Bool
  size : Option Nat
  modified : Option Nat
  deriving DecidableEq, Repr

/-- The fallback entry used where Rust indexes a vector inside bounds
(`self.entries[index]`); every use is guarded by an in-bounds proof or
check, so the fallback is never observed. -/
def dummyEntry : FileEntry := { name := "", is_dir := false, size := none, modified := none }

/-- The preview pane, mirroring `struct PreviewPane`: a title and a body. -/
structure PreviewPane where
  title : String
  body : String
  deriving DecidableEq, Repr

/-- `PreviewPane::empty()`. -/
def PreviewPane.emptyPane : PreviewPane := { title := "Preview", body := "No file selected" }

/-- `PreviewPane::loading()`. -/
def PreviewPane.loadingPane : PreviewPane := { title := "Preview", body := "Loading preview..." }

/-- `enum ConfirmAction`: the data carried from the moment a destructive
action is requested to the moment it is confirmed. -/
inductive ConfirmAction where
  | delete (entry : FileEntry) (path : String)
  deriving DecidableEq, Repr

/-- `enum InputMode`: the modal input state machine's state. -/
inductive InputMode where
  | normal
  | search (buffer : String) (feedback : Option String)
  | command (buffer : String) (feedback : Option String)
  | confirm (message : String) (action : ConfirmAction)
  deriving DecidableEq, Repr

/-- `enum FsEvent`: the one event the scan dispatcher delivers, a tagged
directory-scan result (`FsResult<Vec<FileEntry>>` is `Result<_, String>`). -/
inductive FsEvent where
  | directoryLoaded (path : String) (token : Nat) (result : Except String (List FileEntry))

/-- The key events relevant to the modal handlers (`crossterm::KeyCode`),
with `other` standing for every key code the handlers ignore. -/
inductive Key where
  | char (c : Char)
  | enter
  | esc
  | backspace
  | other
  deriving DecidableEq, Repr

/-- `str::trim`, modelled structurally over the character list so that
it evaluates inside the kernel (Lean's own `String.trim` recurses on byte
positions and does not reduce); it strips leading and trailing
whitespace. -/
def trimChars (s : String) : String :=
  ⟨((s.data.dropWhile Char.isWhitespace).reverse.dropWhile Char.isWhitespace).reverse⟩

/-- `char::is_control` (Unicode Cc: U+0000..U+001F and U+007F..U+009F). -/
def charIsControl (c : Char) : Bool :=
  decide (c.toNat < 32 ∨ (127 ≤ c.toNat ∧ c.toNat ≤ 159))

/-- `struct App`: the aggregate navigation state.  The dispatcher handle
`fs` is process plumbing and carries no state relevant to the claims; the
derived fields are kept verbatim. -/
structure App where
  current_dir : String
  entries : List FileEntry
  selected : Nat
  status : String
  pending_token : Option Nat
  next_token : Nat
  is_loading : Bool
  input_mode : InputMode
  pending_count : Option Nat
  last_search : Option String
  last_action_message : Option String
  preview : PreviewPane
  awaiting_g : Bool
  deriving DecidableEq, Repr

/-- The preview builder boundary: `build_preview(entry, path)` folded
together with its error handling (`PreviewPane::error`), so the result is
always a pane.  It reads the filesystem, hence it is a parameter. -/
def BuildPreview : Type := FileEntry → String → PreviewPane

/-- Path join `self.current_dir.join(name)` for the flat paths the claims
need. -/
def joinPath (dir name : String) : String := dir ++ "/" ++ name

/-- The pane `App::update_preview` stores: loading while a scan is
pending, empty for an empty list or a missing selection, otherwise the
built preview of the selected entry. -/
def App.preview_for (bp : BuildPreview) (a : App) : PreviewPane :=
  if a.is_loading then PreviewPane.loadingPane
  else if a.entries.isEmpty then PreviewPane.emptyPane
  else
    match a.entries[a.selected]? with
    | some entry => bp entry (joinPath a.current_dir entry.name)
    | none => PreviewPane.emptyPane

/-- `App::update_preview`: every branch of the source assigns only
`self.preview`. -/
def App.update_preview (bp : BuildPreview) (a : App) : App :=
  { a with preview := a.preview_for bp }

/-- `App::selected_entry`. -/
def App.selected_entry (a : App) : Option FileEntry := a.entries[a.selected]?

/-- `App::clamp_selection`: pull an out-of-range index back to
`len - 1` (`usize::saturating_sub`, so `0` on an empty list), then
regenerate the preview. -/
def App.clamp_selection (bp : BuildPreview) (a : App) : App :=
  let a1 := if a.selected ≥ a.entries.length then
      { a with selected := a.entries.length - 1 }
    else a
  a1.update_preview bp

/-- `App::move_selection`: no-op (selection 0, preview emptied) on an
empty list, otherwise wrap with `isize::rem_euclid`. -/
def App.move_selection (bp : BuildPreview) (delta : Int) (a : App) : App :=
  if a.entries.isEmpty then
    { a with selected := 0, preview := PreviewPane.emptyPane }
  else
    let len : Int := a.entries.length
    let next := ((a.selected : Int) + delta).emod len
    App.update_preview bp { a with selected := next.toNat }

/-- `App::consume_count_or`: take the pending numeric prefix, or the
default. -/
def App.consume_count_or (d : Nat) (a : App) : Nat × App :=
  (a.pending_count.getD d, { a with pending_count := none })

/-- `App::move_selection_by_count`: scale the delta by the consumed
count (`saturating_mul` modelled as exact multiplication). -/
def App.move_selection_by_count (bp : BuildPreview) (delta : Int) (a : App) : App :=
  let c := a.consume_count_or 1
  c.2.move_selection bp (delta * (c.1 : Int))

/-- `App::jump_to_index`: clamp the requested index to `len - 1`; no-op
with selection 0 and an emptied preview on an empty list. -/
def App.jump_to_index (bp : BuildPreview) (index : Nat) (a : App) : App :=
  if a.entries.isEmpty then
    { a with selected := 0, preview := PreviewPane.emptyPane }
  else
    let max_idx := a.entries.length - 1
    App.update_preview bp { a with selected := min index max_idx }

/-- `App::jump_to_end`: select the last entry when one exists. -/
def App.jump_to_end (bp : BuildPreview) (a : App) : App :=
  if ¬ a.entries.isEmpty then
    App.update_preview bp { a with selected := a.entries.length - 1 }
  else a

/-- `App::cancel_overlay`. -/
def App.cancel_overlay (a : App) : App :=
  { a with input_mode := InputMode.normal, pending_count := none }

/-- `App::set_overlay_feedback`. -/
def App.set_overlay_feedback (message : String) (a : App) : App :=
  match a.input_mode with
  | InputMode.search buffer _ =>
      { a with input_mode := InputMode.search buffer (some message) }
  | InputMode.command buffer _ =>
      { a with input_mode := InputMode.command buffer (some message) }
  | _ => a

/-- `App::clear_overlay_feedback`. -/
def App.clear_overlay_feedback (a : App) : App :=
  match a.input_mode with
  | InputMode.search buffer _ => { a with input_mode := InputMode.search buffer none }
  | InputMode.command buffer _ => { a with input_mode := InputMode.command buffer none }
  | _ => a

/-- `App::refresh_async`: optionally clear the list, allocate the next
token, mark it pending and report loading.  `request_directory_scan`
always returns `Ok`, so the source's `Result` is always a success; the
issued request is the pair `(current_dir, token)`. -/
def App.refresh_async (clear_entries : Bool) (a : App) : App :=
  if clear_entries then
    { a with
      entries := []
      selected := 0
      preview := PreviewPane.loadingPane
      next_token := a.next_token + 1
      pending_token := some a.next_token
      is_loading := true
      status := "Loading " ++ a.current_dir ++ " ..." }
  else
    { a with
      next_token := a.next_token + 1
      pending_token := some a.next_token
      is_loading := true
      status := "Loading " ++ a.current_dir ++ " ..." }

/-- `App::refresh_with_message`: queue a post-action success message and
refresh. -/
def App.refresh_with_message (clear_entries : Bool) (message : String) (a : App) : App :=
  App.refresh_async clear_entries { a with last_action_message := some message }

/-- `App::handle_fs_event`: token-gated reconciliation of a delivered
scan result. -/
def App.handle_fs_event (bp : BuildPreview) (a : App) (ev : FsEvent) : App :=
  match ev with
  | FsEvent.directoryLoaded path token result =>
    if some token ≠ a.pending_token then a
    else
      match result with
      | Except.ok entries =>
        match (App.clamp_selection bp
            { a with pending_token := none, is_loading := false,
                     entries := entries }).last_action_message with
        | some message =>
          { App.clamp_selection bp
              { a with pending_token := none, is_loading := false,
                       entries := entries } with
            last_action_message := none
            status := message }
        | none =>
          { App.clamp_selection bp
              { a with pending_token := none, is_loading := false,
                       entries := entries } with
            status :=
              "Loaded " ++
                toString (App.clamp_selection bp
                  { a with pending_token := none, is_loading := false,
                           entries := entries }).entries.length ++
                " entries from " ++ path }
      | Except.error err =>
        { a with
          pending_token := none
          is_loading := false
          entries := []
          selected := 0
          last_action_message := none
          status := "Error loading " ++ path ++ ": " ++ err }

/-- Substring containment, `str::contains(&str)`: some suffix of the
haystack has the needle as a prefix. -/
def strContainsSub (hay needle : String) : Bool :=
  (List.range (hay.data.length + 1)).any fun i => needle.data.isPrefixOf (hay.data.drop i)

/-- Does the entry at `index` match the (already lowercased) needle,
i.e. `self.entries[index].name.to_lowercase().contains(&needle)`. -/
def App.matchesAt (a : App) (needle : String) (index : Nat) : Bool :=
  strContainsSub ((a.entries.getD index dummyEntry).name.toLower) needle

/-- `App::find_match`: first cyclic forward scan hit, starting at
`start_index` inclusive, over `len` offsets. -/
def App.find_match (a : App) (query : String) (start_index : Nat) : Option Nat :=
  if a.entries.isEmpty then none
  else
    ((List.range a.entries.length).find? fun offset =>
        a.matchesAt query.toLower ((start_index + offset) % a.entries.length)).map
      fun offset => (start_index + offset) % a.entries.length

/-- `App::find_match_reverse`: first cyclic backward scan hit, starting
at `start_index % len` and decrementing with wrap for `len` steps. -/
def App.find_match_reverse (a : App) (query : String) (start_index : Nat) : Option Nat :=
  if a.entries.isEmpty then none
  else
    ((List.range a.entries.length).find? fun k =>
        a.matchesAt query.toLower
          ((start_index % a.entries.length + (a.entries.length - k)) % a.entries.length)).map
      fun k => (start_index % a.entries.length + (a.entries.length - k)) % a.entries.length

/-- `App::apply_search`: on a non-empty list record the query and scan
forward from the selection inclusive; report when nothing matches. -/
def App.apply_search (bp : BuildPreview) (query : String) (a : App) : App :=
  if a.entries.isEmpty then { a with status := "No entries to search" }
  else
    match ({ a with last_search := some query } : App).find_match query a.selected with
    | some index =>
      App.update_preview bp
        { a with
          last_search := some query
          selected := index
          status := "Match: " ++ (a.entries.getD index dummyEntry).name }
    | none =>
      { a with
        last_search := some query
        status := "No match for '" ++ query ++ "'" }

/-- `App::search_next`: repeat the last query from one past the
selection, wrapping forward. -/
def App.search_next (bp : BuildPreview) (a : App) : App :=
  if a.entries.isEmpty then { a with status := "No entries to search" }
  else
    match a.last_search with
    | none => { a with status := "No previous search" }
    | some query =>
      match a.find_match query ((a.selected + 1) % a.entries.length) with
      | some index =>
        App.update_preview bp
          { a with
            selected := index
            status := "Match: " ++ (a.entries.getD index dummyEntry).name }
      | none => { a with status := "No more matches for '" ++ query ++ "'" }

/-- `App::search_prev`: repeat the last query from one before the
selection, wrapping backward. -/
def App.search_prev (bp : BuildPreview) (a : App) : App :=
  if a.entries.isEmpty then { a with status := "No entries to search" }
  else
    match a.last_search with
    | none => { a with status := "No previous search" }
    | some query =>
      match a.find_match_reverse query
        (if a.entries.length = 0 then 0
         else (a.selected + a.entries.length - 1) % a.entries.length) with
      | some index =>
        App.update_preview bp
          { a with
            selected := index
            status := "Match: " ++ (a.entries.getD index dummyEntry).name }
      | none => { a with status := "No previous matches for '" ++ query ++ "'" }

/-- `handle_search_mode`: the Search-mode key handler. -/
def handle_search_mode (bp : BuildPreview) (key : Key) (a : App) : App :=
  match key with
  | Key.esc => { a.cancel_overlay with status := "Search canceled" }
  | Key.enter =>
    match a.input_mode with
    | InputMode.search buffer _ =>
      if buffer.isEmpty then a.set_overlay_feedback "Enter a search query"
      else
        let query := buffer
        (a.cancel_overlay).apply_search bp query
    | _ => a
  | Key.backspace =>
    let a1 := match a.input_mode with
      | InputMode.search buffer feedback =>
          { a with input_mode := InputMode.search (buffer.dropRight 1) feedback }
      | _ => a
    a1.clear_overlay_feedback
  | Key.char ch =>
    if ¬ charIsControl ch then
      let a1 := match a.input_mode with
        | InputMode.search buffer feedback =>
            { a with input_mode := InputMode.search (buffer.push ch) feedback }
        | _ => a
      a1.clear_overlay_feedback
    else a
  | _ => a

/-- `handle_command_mode`: the Command-mode key handler.  The committed
buffer is handed to `App::run_command`, which dispatches on the
filesystem; the interpreter is therefore a parameter, applied to the
state after the overlay is closed. -/
def handle_command_mode (runCommand : String → App → App) (key : Key) (a : App) : App :=
  match key with
  | Key.esc => { a.cancel_overlay with status := "Command canceled" }
  | Key.enter =>
    match a.input_mode with
    | InputMode.command buffer _ =>
      if (trimChars buffer).isEmpty then a.set_overlay_feedback "Enter a command"
      else
        let command := buffer
        runCommand command a.cancel_overlay
    | _ => a
  | Key.backspace =>
    let a1 := match a.input_mode with
      | InputMode.command buffer feedback =>
          { a with input_mode := InputMode.command (buffer.dropRight 1) feedback }
      | _ => a
    a1.clear_overlay_feedback
  | Key.char ch =>
    if ¬ charIsControl ch then
      let a1 := match a.input_mode with
        | InputMode.command buffer feedback =>
            { a with input_mode := InputMode.command (buffer.push ch) feedback }
        | _ => a
      a1.clear_overlay_feedback
    else a
  | _ => a

/-- The abstract filesystem seen by delete: the list of extant paths.
`fs::remove_dir_all` removes the path and everything below it,
`fs::remove_file` removes exactly the path; both fail when the path does
not exist. -/
def removeDirAll (fs : List String) (path : String) : List String :=
  fs.filter fun q => ¬ (q = path ∨ (path ++ "/").isPrefixOf q)

/-- Removal of a single file path from the abstract filesystem. -/
def removeFilePath (fs : List String) (path : String) : List String :=
  fs.filter fun q => ¬ q = path

/-- `App::command_delete`: re-find the carried entry by name in the
current list (falling back to the carried snapshot), remove the carried
path — recursively for a directory, singly for a file — and refresh.
Errors return the state and filesystem unchanged. -/
def App.command_delete (entry : FileEntry) (path : String) (a : App) (fs : List String) :
    Except String Unit × App × List String :=
  let entry := ((a.entries.find? fun e => e.name == entry.name).getD entry)
  if entry.is_dir then
    if path ∈ fs then
      (Except.ok (), a.refresh_with_message true ("Deleted " ++ entry.name),
        removeDirAll fs path)
    else (Except.error ("removing directory " ++ entry.name), a, fs)
  else
    if path ∈ fs then
      (Except.ok (), a.refresh_with_message true ("Deleted " ++ entry.name),
        removeFilePath fs path)
    else (Except.error ("removing file " ++ entry.name), a, fs)

/-- `App::execute_confirm_action`. -/
def App.execute_confirm_action (action : ConfirmAction) (a : App) (fs : List String) :
    Except String Unit × App × List String :=
  match action with
  | ConfirmAction.delete entry path => a.command_delete entry path fs

/-- The `y`/`Y`/`Enter` branch of `handle_confirm_mode`: `mem::replace`
resets the mode to Normal unconditionally, the carried action (if the old
mode was Confirm) is executed, a failure is reported in the status, and
the pending count is cleared. -/
def confirmYes (a : App) (fs : List String) : App × List String :=
  match a.input_mode with
  | InputMode.confirm _ action =>
    let a1 := { a with input_mode := InputMode.normal }
    match a1.execute_confirm_action action fs with
    | (Except.ok _, a2, fs2) => ({ a2 with pending_count := none }, fs2)
    | (Except.error err, a2, fs2) =>
        ({ a2 with status := "Action failed: " ++ err, pending_count := none }, fs2)
  | _ => ({ a with input_mode := InputMode.normal, pending_count := none }, fs)

/-- `handle_confirm_mode`: the Confirm-mode key handler. -/
def handle_confirm_mode (key : Key) (a : App) (fs : List String) : App × List String :=
  match key with
  | Key.esc => ({ a.cancel_overlay with status := "Action canceled" }, fs)
  | Key.enter => confirmYes a fs
  | Key.char c =>
    if c = 'n' ∨ c = 'N' then ({ a.cancel_overlay with status := "Action canceled" }, fs)
    else if c = 'y' ∨ c = 'Y' then confirmYes a fs
    else (a, fs)
  | _ => (a, fs)

/-- `App::validate_new_name`: trim, then reject empty, unchanged (when a
current name is given), `.`/`..`, and path separators. -/
def validate_new_name (input current : String) : Except String String :=
  if (trimChars input).isEmpty then Except.error "Name cannot be empty"
  else if current.isEmpty = false ∧ trimChars input = current then
    Except.error "Name is unchanged"
  else if trimChars input = "." ∨ trimChars input = ".." then
    Except.error ("Invalid name '" ++ trimChars input ++ "'")
  else if (trimChars input).data.any (fun ch => ch == '/' || ch == '\\') then
    Except.error "Name cannot contain path separators"
  else Except.ok (trimChars input)

/-- The abstract current directory seen by rename: an association list
from entry names to file contents (abstracted to numbers); a destination
exists when lookup succeeds. -/
def DirFs : Type := List (String × Nat)

/-- `fs::rename` inside the current directory: fails when the source name
is absent, otherwise rebinds the content to the new name. -/
def dirRename (fs : DirFs) (src dest : String) : Except String DirFs :=
  match List.lookup src fs with
  | none => Except.error ("renaming " ++ src ++ " -> " ++ dest)
  | some c => Except.ok ((dest, c) :: fs.filter fun p => ¬ p.1 = src)

/-- `App::command_rename`: selection, name validation and the
destination-exists check all happen before the rename syscall; an error
returns the state and filesystem unchanged. -/
def App.command_rename (new_name : String) (a : App) (fs : DirFs) :
    Except String Unit × App × DirFs :=
  match a.selected_entry with
  | none => (Except.error "No selection to rename", a, fs)
  | some entry =>
    match validate_new_name new_name entry.name with
    | Except.error e => (Except.error e, a, fs)
    | Except.ok name =>
      if (List.lookup name fs).isSome then
        (Except.error ("A file named '" ++ name ++ "' already exists"), a, fs)
      else
        match dirRename fs entry.name name with
        | Except.error e => (Except.error e, a, fs)
        | Except.ok fs2 =>
          (Except.ok (),
            a.refresh_with_message true ("Renamed " ++ entry.name ++ " -> " ++ name), fs2)

/-- The primitive filesystem calls `App::command_move` makes, in program
order. -/
inductive MvOp where
  | rename
  | copyDir
  | copyFile
  | removeDir
  | removeFile
  deriving DecidableEq, Repr

/-- The abstract filesystem seen by move: whether the source and the
computed destination exist. -/
structure MvFs where
  src : Bool
  dest : Bool
  deriving DecidableEq, Repr

/-- The success oracle for move's primitive calls: whether the atomic
rename, the fallback copy and the fallback removal fail (cross-device
errors, permissions, races — outcomes the code cannot predict). -/
structure MvOracle where
  renameFails : Bool
  copyFails : Bool
  removeFails : Bool
  deriving DecidableEq, Repr

/-- `App::command_move`: after the selection and destination checks,
attempt the atomic rename; on its failure fall back to copy (recursive
for a directory, byte copy for a file) then removal of the source.  The
result also carries the trace of attempted primitive calls.  Destination
computation (`compute_destination`) is abstracted to its trim check plus
the `dest.exists()` bit of `MvFs`. -/
def App.command_move (target : String) (a : App) (fs : MvFs) (o : MvOracle) :
    Except String Unit × App × MvFs × List MvOp :=
  match a.selected_entry with
  | none => (Except.error "No selection to move", a, fs, [])
  | some entry =>
    if (trimChars target).isEmpty then (Except.error "Destination path required", a, fs, [])
    else if fs.dest then (Except.error "Destination already exists", a, fs, [])
    else if o.renameFails then
      if entry.is_dir then
        if o.copyFails then
          (Except.error ("copying " ++ entry.name), a, fs, [MvOp.rename, MvOp.copyDir])
        else if o.removeFails then
          (Except.error ("removing " ++ entry.name), a, { fs with dest := true },
            [MvOp.rename, MvOp.copyDir, MvOp.removeDir])
        else
          (Except.ok (), a.refresh_with_message true ("Moved " ++ entry.name),
            { src := false, dest := true }, [MvOp.rename, MvOp.copyDir, MvOp.removeDir])
      else
        if o.copyFails then
          (Except.error ("copying " ++ entry.name), a, fs, [MvOp.rename, MvOp.copyFile])
        else if o.removeFails then
          (Except.error ("removing " ++ entry.name), a, { fs with dest := true },
            [MvOp.rename, MvOp.copyFile, MvOp.removeFile])
        else
          (Except.ok (), a.refresh_with_message true ("Moved " ++ entry.name),
            { src := false, dest := true }, [MvOp.rename, MvOp.copyFile, MvOp.removeFile])
    else
      (Except.ok (), a.refresh_with_message true ("Moved " ++ entry.name),
        { src := false, dest := true }, [MvOp.rename])

/-- The comparator of `read_directory`'s `sort_by`, as a boolean
less-or-equal: `le a b` iff the comparator does not answer `Greater`
(directories strictly before files, case-insensitive name order inside a
group). -/
def entryLe (a b : FileEntry) : Bool :=
  match a.is_dir, b.is_dir with
  | true, false => true
  | false, true => false
  | _, _ => decide (a.name.toLower ≤ b.name.toLower)

/-- The pure core of `read_directory`: the raw entries (those whose
metadata resolved) stably sorted by the comparator.  Rust's
`slice::sort_by` and `List.mergeSort` are both stable sorts, and a stable
sort by a total preorder is unique, so they agree. -/
def read_directory (raw : List FileEntry) : List FileEntry :=
  raw.mergeSort entryLe

/-- The operations of the navigation engine that can touch `entries` or
`selected` (movement, jumps, search, scan reconciliation, and the
refreshes through which every command mutates the list). -/
inductive Op where
  | moveSelection (delta : Int)
  | moveSelectionByCount (delta : Int)
  | jumpToIndex (i : Nat)
  | jumpToEnd
  | applySearch (q : String)
  | searchNext
  | searchPrev
  | fsEvent (ev : FsEvent)
  | refreshAsync (clear : Bool)
  | refreshWithMessage (clear : Bool) (msg : String)
  | clampSelection

/-- One step of the navigation engine. -/
def App.step (bp : BuildPreview) (a : App) : Op → App
  | Op.moveSelection d => a.move_selection bp d
  | Op.moveSelectionByCount d => a.move_selection_by_count bp d
  | Op.jumpToIndex i => a.jump_to_index bp i
  | Op.jumpToEnd => a.jump_to_end bp
  | Op.applySearch q => a.apply_search bp q
  | Op.searchNext => a.search_next bp
  | Op.searchPrev => a.search_prev bp
  | Op.fsEvent ev => a.handle_fs_event bp ev
  | Op.refreshAsync c => a.refresh_async c
  | Op.refreshWithMessage c m => a.refresh_with_message c m
  | Op.clampSelection => a.clamp_selection bp

/-- The selection invariant of the specification: `selected` is `0` on an
empty list and a valid index otherwise. -/
def SelInv (a : App) : Prop :=
  (a.entries = [] → a.selected = 0) ∧ (a.entries ≠ [] → a.selected < a.entries.length)

/-- A trivial preview builder, used to instantiate witnesses. -/
def bp0 : BuildPreview := fun _ _ => PreviewPane.emptyPane

/-- A trivial command interpreter, used to instantiate witnesses. -/
def runCommand0 : String → App → App := fun _ a => a

/-- A concrete three-entry application state used by witnesses. -/
def app3 : App :=
  { current_dir := "/tmp"
    entries :=
      [ { name := "docs", is_dir := true, size := none, modified := none }
      , { name := "a.txt", is_dir := false, size := some 3, modified := none }
      , { name := "b.txt", is_dir := false, size := some 5, modified := none } ]
    selected := 0
    status := ""
    pending_token := none
    next_token := 4
    is_loading := false
    input_mode := InputMode.normal
    pending_count := none
    last_search := none
    last_action_message := none
    preview := PreviewPane.emptyPane
    awaiting_g := false }

/-- A concrete empty application state used by witnesses. -/
def appEmpty : App :=
  { app3 with entries := [], selected := 0 }

/-- A concrete state with a pending token and a queued post-action
message, used by witnesses. -/
def appPending : App :=
  { app3 with pending_token := some 3, last_action_message := some "Deleted a.txt" }

/-- A concrete state in Search mode with a whitespace-only buffer. -/
def appSearchBlank : App :=
  { app3 with input_mode := InputMode.search " " none }

/-- A concrete state in Command mode with a whitespace-only buffer. -/
def appCommandBlank : App :=
  { app3 with input_mode := InputMode.command " " none }

/-- A concrete state in Confirm mode carrying a pending delete. -/
def appConfirm : App :=
  { app3 with
    input_mode := InputMode.confirm "Delete 'a.txt'?"
      (ConfirmAction.delete
        { name := "a.txt", is_dir := false, size := some 3, modified := none }
        "/tmp/a.txt") }

/-! ### Frame lemmas for the preview regeneration -/

/-- Updating the preview changes no other field: the entry list. -/
theorem update_preview_entries (bp : BuildPreview) (a : App) :
    (a.update_preview bp).entries = a.entries := rfl

/-- Updating the preview changes no other field: the selection. -/
theorem update_preview_selected (bp : BuildPreview) (a : App) :
    (a.update_preview bp).selected = a.selected := rfl

/-- Updating the preview changes no other field: the input mode. -/
theorem update_preview_input_mode (bp : BuildPreview) (a : App) :
    (a.update_preview bp).input_mode = a.input_mode := rfl

/-- C1: delivering a `DirectoryLoaded` scan result whose token differs
from the currently pending token is discarded unconditionally — the state
(entries, selection, status, everything) is exactly what preceded the
delivery. -/
theorem stale_scan_result_discarded (bp : BuildPreview) (a : App) (path : String)
    (token : Nat) (result : Except String (List FileEntry))
    (h : some token ≠ a.pending_token) :
    a.handle_fs_event bp (FsEvent.directoryLoaded path token result) = a := by
  simp only [App.handle_fs_event, if_pos h]

/-- Witness for C1 at a concrete state with no pending token. -/
theorem stale_scan_result_discarded_witness :
    some 7 ≠ app3.pending_token ∧
      app3.handle_fs_event bp0 (FsEvent.directoryLoaded "/tmp" 7 (Except.ok [])) = app3 :=
  ⟨by decide, stale_scan_result_discarded bp0 app3 "/tmp" 7 (Except.ok []) (by decide)⟩

/-- C10: an accepted scan result carrying an error payload clears the
entry list, resets the selection to 0, drops any queued post-action
message and shows the error status. -/
theorem accepted_error_scan_resets (bp : BuildPreview) (a : App) (path err : String)
    (token : Nat) (h : some token = a.pending_token) :
    a.handle_fs_event bp (FsEvent.directoryLoaded path token (Except.error err)) =
      { a with
        entries := []
        selected := 0
        pending_token := none
        is_loading := false
        last_action_message := none
        status := "Error loading " ++ path ++ ": " ++ err } := by
  have hcond : ¬ (some token ≠ a.pending_token) := by simp [h]
  simp only [App.handle_fs_event, if_neg hcond]

/-- Witness for C10 at a concrete state with a matching pending token and
a queued success message that the failure drops. -/
theorem accepted_error_scan_resets_witness :
    some 3 = appPending.pending_token ∧
      appPending.handle_fs_event bp0
          (FsEvent.directoryLoaded "/tmp" 3 (Except.error "denied")) =
        { appPending with
          entries := []
          selected := 0
          pending_token := none
          is_loading := false
          last_action_message := none
          status := "Error loading " ++ "/tmp" ++ ": " ++ "denied" } :=
  ⟨rfl, accepted_error_scan_resets bp0 appPending "/tmp" "denied" 3 rfl⟩

/-- C9: `move_selection` on an empty list resets the selection to 0 and
clears the preview; on a non-empty list of length N it keeps the entries,
lands in `[0, N)` and the new index is congruent to `selected + delta`
under the mathematical (Euclidean, non-negative) modulo. -/
theorem move_selection_wraps (bp : BuildPreview) (a : App) (delta : Int) :
    (a.entries = [] →
      a.move_selection bp delta =
        { a with selected := 0, preview := PreviewPane.emptyPane }) ∧
    (a.entries ≠ [] →
      (a.move_selection bp delta).entries = a.entries ∧
      (a.move_selection bp delta).selected < a.entries.length ∧
      ((a.move_selection bp delta).selected : Int) =
        ((a.selected : Int) + delta).emod (a.entries.length : Int)) := by
  constructor
  · intro h
    simp [App.move_selection, h]
  · intro h
    have hlen : 0 < a.entries.length := List.length_pos.mpr h
    have hlenI : (0 : Int) < (a.entries.length : Int) := by exact_mod_cast hlen
    have hnonneg : 0 ≤ ((a.selected : Int) + delta).emod (a.entries.length : Int) :=
      Int.emod_nonneg _ (by omega)
    have hlt : ((a.selected : Int) + delta).emod (a.entries.length : Int) <
        (a.entries.length : Int) := Int.emod_lt_of_pos _ hlenI
    have hne : a.entries.isEmpty = false := by
      simp [List.isEmpty_iff, h]
    refine ⟨?_, ?_, ?_⟩
    · simp [App.move_selection, hne, App.update_preview]
    · simp only [App.move_selection, hne, Bool.false_eq_true, if_false,
        App.update_preview]
      exact (Int.toNat_lt hnonneg).mpr hlt
    · simp only [App.move_selection, hne, Bool.false_eq_true, if_false,
        App.update_preview]
      exact Int.toNat_of_nonneg hnonneg

/-- Witness for C9: the spec's example N=3, selected=0, delta=-1 gives
index 2 — movement wraps at the lower end. -/
theorem move_selection_wraps_witness :
    app3.entries ≠ [] ∧ (app3.move_selection bp0 (-1)).entries = app3.entries ∧
      (app3.move_selection bp0 (-1)).selected < app3.entries.length ∧
      ((app3.move_selection bp0 (-1)).selected : Int) =
        ((app3.selected : Int) + (-1)).emod (app3.entries.length : Int) :=
  ⟨by decide, (move_selection_wraps bp0 app3 (-1)).2 (by decide)⟩

/-! ### The directory-scan sort (C2) -/

/-- The sort comparator is transitive. -/
theorem entryLe_trans (a b c : FileEntry) (hab : entryLe a b = true)
    (hbc : entryLe b c = true) : entryLe a c = true := by
  unfold entryLe at hab hbc ⊢
  cases ha : a.is_dir <;> cases hb : b.is_dir <;> cases hc : c.is_dir <;>
    simp_all [decide_eq_true_eq]
  · exact le_trans hab hbc
  · exact le_trans hab hbc

/-- The sort comparator is total. -/
theorem entryLe_total (a b : FileEntry) : (entryLe a b || entryLe b a) = true := by
  unfold entryLe
  cases ha : a.is_dir <;> cases hb : b.is_dir <;>
    simp_all [decide_eq_true_eq]
  · exact le_total a.name.toLower.data b.name.toLower.data
  · exact le_total a.name.toLower.data b.name.toLower.data

/-- The comparator implies the specification's pairwise ordering: no file
stands before a directory, and names inside a group are non-decreasing
under case-insensitive comparison. -/
theorem entryLe_implies_ordered (x y : FileEntry) (h : entryLe x y = true) :
    (y.is_dir = true → x.is_dir = true) ∧
      (x.is_dir = y.is_dir → x.name.toLower ≤ y.name.toLower) := by
  unfold entryLe at h
  cases hx : x.is_dir <;> cases hy : y.is_dir <;> simp_all [decide_eq_true_eq]

/-- C2: every entry list produced by a directory scan is a permutation of
the raw entries in which all directories stand before all files, names
inside each group are non-decreasing under case-insensitive comparison,
and the sort is stable (any comparator-sorted sublist of the input stays
a sublist of the output). -/
theorem read_directory_sorted (raw : List FileEntry) :
    (read_directory raw).Pairwise (fun x y =>
        (y.is_dir = true → x.is_dir = true) ∧
          (x.is_dir = y.is_dir → x.name.toLower ≤ y.name.toLower)) ∧
      (read_directory raw).Perm raw ∧
      (∀ c : List FileEntry, c.Pairwise (fun x y => entryLe x y = true) →
        c.Sublist raw → c.Sublist (read_directory raw)) := by
  refine ⟨?_, List.mergeSort_perm raw entryLe, ?_⟩
  · exact (List.sorted_mergeSort entryLe_trans entryLe_total raw).imp
      fun h => entryLe_implies_ordered _ _ h
  · intro c hc hs
    exact List.sublist_mergeSort entryLe_trans entryLe_total hc hs

/-- Witness for C2 at the concrete entry list of `app3` and the empty
sorted sublist. -/
theorem read_directory_sorted_witness :
    (read_directory app3.entries).Perm app3.entries ∧
      ([] : List FileEntry).Sublist (read_directory app3.entries) :=
  ⟨(read_directory_sorted app3.entries).2.1,
    (read_directory_sorted app3.entries).2.2 [] List.Pairwise.nil (List.nil_sublist _)⟩

/-! ### The selection invariant (C3) -/

/-- Movement always re-establishes the selection invariant. -/
theorem move_selection_selinv (bp : BuildPreview) (d : Int) (a : App) :
    SelInv (a.move_selection bp d) := by
  unfold App.move_selection
  split
  · next he =>
    have h0 : a.entries = [] := List.isEmpty_iff.mp he
    exact ⟨fun _ => rfl, fun hne => absurd h0 hne⟩
  · next hne =>
    have hne' : a.entries ≠ [] := fun h => hne (by simp [h])
    have hlen : 0 < a.entries.length := List.length_pos.mpr hne'
    refine ⟨fun he => absurd (he : a.entries = []) hne', fun _ => ?_⟩
    show (((a.selected : Int) + d).emod (a.entries.length : Int)).toNat < a.entries.length
    have hlenI : (0 : Int) < (a.entries.length : Int) := by exact_mod_cast hlen
    have hnn : 0 ≤ ((a.selected : Int) + d).emod (a.entries.length : Int) :=
      Int.emod_nonneg _ (by omega)
    exact (Int.toNat_lt hnn).mpr (Int.emod_lt_of_pos _ hlenI)

/-- Jumping to an index always re-establishes the selection invariant. -/
theorem jump_to_index_selinv (bp : BuildPreview) (i : Nat) (a : App) :
    SelInv (a.jump_to_index bp i) := by
  unfold App.jump_to_index
  split
  · next he =>
    have h0 : a.entries = [] := List.isEmpty_iff.mp he
    exact ⟨fun _ => rfl, fun hne => absurd h0 hne⟩
  · next hne =>
    have hne' : a.entries ≠ [] := fun h => hne (by simp [h])
    have hlen : 0 < a.entries.length := List.length_pos.mpr hne'
    refine ⟨fun he => absurd (he : a.entries = []) hne', fun _ => ?_⟩
    show min i (a.entries.length - 1) < a.entries.length
    omega

/-- Jumping to the end preserves the selection invariant. -/
theorem jump_to_end_selinv (bp : BuildPreview) (a : App) (h : SelInv a) :
    SelInv (a.jump_to_end bp) := by
  unfold App.jump_to_end
  split
  · next hne =>
    have hne' : a.entries ≠ [] := fun he => by simp [he] at hne
    have hlen : 0 < a.entries.length := List.length_pos.mpr hne'
    refine ⟨fun he => absurd (he : a.entries = []) hne', fun _ => ?_⟩
    show a.entries.length - 1 < a.entries.length
    omega
  · exact h

/-- Clamping always re-establishes the selection invariant. -/
theorem clamp_selection_selinv (bp : BuildPreview) (a : App) :
    SelInv (a.clamp_selection bp) := by
  unfold App.clamp_selection
  split
  · next hge =>
    constructor
    · intro he
      show a.entries.length - 1 = 0
      have h0 : a.entries = [] := he
      simp [h0]
    · intro hne
      have hne' : a.entries ≠ [] := hne
      have hlen : 0 < a.entries.length := List.length_pos.mpr hne'
      show a.entries.length - 1 < a.entries.length
      omega
  · next hlt =>
    have hlt' : a.selected < a.entries.length := not_le.mp hlt
    constructor
    · intro he
      have h0 : a.entries.length = 0 := by
        have h1 : a.entries = [] := he
        simp [h1]
      show a.selected = 0
      omega
    · intro _
      exact hlt'

/-- A found forward match is a valid index. -/
theorem find_match_lt_length {a : App} {q : String} {s i : Nat}
    (h : a.find_match q s = some i) : i < a.entries.length := by
  unfold App.find_match at h
  split at h
  · exact absurd h (by simp)
  · next hne =>
    have hne' : a.entries ≠ [] := fun he => hne (by simp [he])
    have hlen : 0 < a.entries.length := List.length_pos.mpr hne'
    rw [Option.map_eq_some'] at h
    obtain ⟨off, _, hoff⟩ := h
    exact hoff ▸ Nat.mod_lt _ hlen

/-- A found backward match is a valid index. -/
theorem find_match_reverse_lt_length {a : App} {q : String} {s i : Nat}
    (h : a.find_match_reverse q s = some i) : i < a.entries.length := by
  unfold App.find_match_reverse at h
  split at h
  · exact absurd h (by simp)
  · next hne =>
    have hne' : a.entries ≠ [] := fun he => hne (by simp [he])
    have hlen : 0 < a.entries.length := List.length_pos.mpr hne'
    rw [Option.map_eq_some'] at h
    obtain ⟨k, _, hk⟩ := h
    exact hk ▸ Nat.mod_lt _ hlen

/-- Applying a search preserves the selection invariant. -/
theorem apply_search_selinv (bp : BuildPreview) (q : String) (a : App)
    (h : SelInv a) : SelInv (a.apply_search bp q) := by
  unfold App.apply_search
  split
  · exact h
  · next hne =>
    have hne' : a.entries ≠ [] := fun he => hne (by simp [he])
    split
    · next index hm =>
      have hidx := find_match_lt_length hm
      exact ⟨fun he => absurd (he : a.entries = []) hne', fun _ => hidx⟩
    · exact h

/-- `search_next` preserves the selection invariant. -/
theorem search_next_selinv (bp : BuildPreview) (a : App) (h : SelInv a) :
    SelInv (a.search_next bp) := by
  unfold App.search_next
  split
  · exact h
  · next hne =>
    have hne' : a.entries ≠ [] := fun he => hne (by simp [he])
    split
    · exact h
    · next q hq =>
      split
      · next index hm =>
        have hidx := find_match_lt_length hm
        exact ⟨fun he => absurd (he : a.entries = []) hne', fun _ => hidx⟩
      · exact h

/-- `search_prev` preserves the selection invariant. -/
theorem search_prev_selinv (bp : BuildPreview) (a : App) (h : SelInv a) :
    SelInv (a.search_prev bp) := by
  unfold App.search_prev
  split
  · exact h
  · next hne =>
    have hne' : a.entries ≠ [] := fun he => hne (by simp [he])
    split
    · exact h
    · next q hq =>
      split
      · next index hm =>
        have hidx := find_match_reverse_lt_length hm
        exact ⟨fun he => absurd (he : a.entries = []) hne', fun _ => hidx⟩
      · exact h

/-- Reconciling a scan result preserves the selection invariant. -/
theorem handle_fs_event_selinv (bp : BuildPreview) (a : App) (ev : FsEvent)
    (h : SelInv a) : SelInv (a.handle_fs_event bp ev) := by
  cases ev with
  | directoryLoaded path token result =>
    simp only [App.handle_fs_event]
    by_cases htok : some token ≠ a.pending_token
    · rw [if_pos htok]; exact h
    · rw [if_neg htok]
      cases result with
      | error err => exact ⟨fun _ => rfl, fun hne => absurd rfl hne⟩
      | ok entries =>
        have hc := clamp_selection_selinv bp
          { a with pending_token := none, is_loading := false, entries := entries }
        cases hm : (App.clamp_selection bp
            { a with pending_token := none, is_loading := false,
                     entries := entries }).last_action_message with
        | none => simp only [hm]; exact ⟨hc.1, hc.2⟩
        | some message => simp only [hm]; exact ⟨hc.1, hc.2⟩

/-- Issuing a refresh preserves the selection invariant. -/
theorem refresh_async_selinv (c : Bool) (a : App) (h : SelInv a) :
    SelInv (a.refresh_async c) := by
  unfold App.refresh_async
  cases c
  · exact h
  · exact ⟨fun _ => rfl, fun hne => absurd rfl hne⟩

/-- C3: every operation that can change the entry list or the selection
(movement, jumps, search, scan reconciliation, the refreshes through
which commands mutate the list) preserves the invariant that `selected`
is a valid index on a non-empty list and `0` on an empty one. -/
theorem step_preserves_selection_invariant (bp : BuildPreview) (a : App) (op : Op)
    (h : SelInv a) : SelInv (a.step bp op) := by
  cases op with
  | moveSelection d => exact move_selection_selinv bp d a
  | moveSelectionByCount d =>
    unfold App.step App.move_selection_by_count
    exact move_selection_selinv bp _ _
  | jumpToIndex i => exact jump_to_index_selinv bp i a
  | jumpToEnd => exact jump_to_end_selinv bp a h
  | applySearch q => exact apply_search_selinv bp q a h
  | searchNext => exact search_next_selinv bp a h
  | searchPrev => exact search_prev_selinv bp a h
  | fsEvent ev => exact handle_fs_event_selinv bp a ev h
  | refreshAsync c => exact refresh_async_selinv c a h
  | refreshWithMessage c m => exact refresh_async_selinv c { a with last_action_message := some m } h
  | clampSelection => exact clamp_selection_selinv bp a

/-- Witness for C3 at a concrete state and a wrapping backward move. -/
theorem step_preserves_selection_invariant_witness :
    SelInv app3 ∧ SelInv (app3.step bp0 (Op.moveSelection (-1))) :=
  have hinv : SelInv app3 := ⟨fun h => absurd h (by decide), fun _ => by decide⟩
  ⟨hinv, step_preserves_selection_invariant bp0 app3 (Op.moveSelection (-1)) hinv⟩

/-! ### Confirm mode (C6) -/

/-- A refresh does not change the input mode. -/
theorem refresh_with_message_input_mode (c : Bool) (m : String) (a : App) :
    (a.refresh_with_message c m).input_mode = a.input_mode := by
  unfold App.refresh_with_message App.refresh_async
  cases c <;> rfl

/-- The `y`/`Enter` branch with a carried delete: the mode returns to
Normal and, when the carried path exists, exactly that path (with its
subtree) is removed from the filesystem. -/
theorem confirmYes_spec (a : App) (fs : List String) (msg : String) (entry : FileEntry)
    (path : String)
    (hm : a.input_mode = InputMode.confirm msg (ConfirmAction.delete entry path))
    (hpath : path ∈ fs) :
    (confirmYes a fs).1.input_mode = InputMode.normal ∧
      path ∉ (confirmYes a fs).2 ∧
      (∀ q ∈ fs, q ≠ path → (path ++ "/").isPrefixOf q = false →
        q ∈ (confirmYes a fs).2) := by
  unfold confirmYes
  simp only [hm]
  unfold App.execute_confirm_action App.command_delete
  by_cases hd : ((({ a with input_mode := InputMode.normal } : App).entries.find?
      fun e => e.name == entry.name).getD entry).is_dir
  · simp only [hd, if_pos hpath, if_true]
    refine ⟨?_, ?_, ?_⟩
    · show (({ a with input_mode := InputMode.normal } :
          App).refresh_with_message true _).input_mode = InputMode.normal
      rw [refresh_with_message_input_mode]
    · simp [removeDirAll, List.mem_filter]
    · intro q hq hqp hpre
      simp [removeDirAll, List.mem_filter, hq, hqp, hpre]
  · simp only [hd, if_pos hpath, Bool.false_eq_true, if_false]
    refine ⟨?_, ?_, ?_⟩
    · show (({ a with input_mode := InputMode.normal } :
          App).refresh_with_message true _).input_mode = InputMode.normal
      rw [refresh_with_message_input_mode]
    · simp [removeFilePath, List.mem_filter]
    · intro q hq hqp hpre
      simp [removeFilePath, List.mem_filter, hq, hqp]

/-- C6: in Confirm mode with a pending delete, `n`/`N`/`Esc` return to
Normal leaving the entry list and the filesystem unchanged; `y`/`Y`/
`Enter` return to Normal and remove exactly the carried path (recursive
for a directory, single for a file), whatever the current selection; any
other key has no effect at all. -/
theorem handle_confirm_mode_claim (a : App) (fs : List String) (msg : String)
    (entry : FileEntry) (path : String)
    (hm : a.input_mode = InputMode.confirm msg (ConfirmAction.delete entry path)) :
    (∀ key, (key = Key.esc ∨ key = Key.char 'n' ∨ key = Key.char 'N') →
      (handle_confirm_mode key a fs).1.input_mode = InputMode.normal ∧
        (handle_confirm_mode key a fs).1.entries = a.entries ∧
        (handle_confirm_mode key a fs).2 = fs) ∧
    (∀ key, (key = Key.enter ∨ key = Key.char 'y' ∨ key = Key.char 'Y') → path ∈ fs →
      (handle_confirm_mode key a fs).1.input_mode = InputMode.normal ∧
        path ∉ (handle_confirm_mode key a fs).2 ∧
        (∀ q ∈ fs, q ≠ path → (path ++ "/").isPrefixOf q = false →
          q ∈ (handle_confirm_mode key a fs).2)) ∧
    (∀ key, key ≠ Key.esc → key ≠ Key.enter →
      (∀ c, key = Key.char c → c ≠ 'n' ∧ c ≠ 'N' ∧ c ≠ 'y' ∧ c ≠ 'Y') →
      handle_confirm_mode key a fs = (a, fs)) := by
  refine ⟨?_, ?_, ?_⟩
  · rintro key (rfl | rfl | rfl)
    · exact ⟨rfl, rfl, rfl⟩
    · simp [handle_confirm_mode, App.cancel_overlay]
    · simp [handle_confirm_mode, App.cancel_overlay]
  · rintro key (rfl | rfl | rfl) <;> intro hpath
    · exact confirmYes_spec a fs msg entry path hm hpath
    · show (confirmYes a fs).1.input_mode = InputMode.normal ∧ _
      exact confirmYes_spec a fs msg entry path hm hpath
    · show (confirmYes a fs).1.input_mode = InputMode.normal ∧ _
      exact confirmYes_spec a fs msg entry path hm hpath
  · intro key hesc henter hchar
    cases key with
    | esc => exact absurd rfl hesc
    | enter => exact absurd rfl henter
    | backspace => rfl
    | other => rfl
    | char c =>
      obtain ⟨hn, hN, hy, hY⟩ := hchar c rfl
      simp [handle_confirm_mode, hn, hN, hy, hY]

/-- Witness for C6: confirming with `y` removes exactly the carried path
from a two-file directory and returns to Normal mode. -/
theorem handle_confirm_mode_claim_witness :
    (handle_confirm_mode (Key.char 'y') appConfirm
        ["/tmp/a.txt", "/tmp/b.txt"]).1.input_mode = InputMode.normal ∧
      "/tmp/a.txt" ∉ (handle_confirm_mode (Key.char 'y') appConfirm
        ["/tmp/a.txt", "/tmp/b.txt"]).2 :=
  have h := (handle_confirm_mode_claim appConfirm ["/tmp/a.txt", "/tmp/b.txt"]
      "Delete 'a.txt'?"
      { name := "a.txt", is_dir := false, size := some 3, modified := none }
      "/tmp/a.txt" rfl).2.1 (Key.char 'y') (Or.inr (Or.inl rfl)) (by decide)
  ⟨h.1, h.2.1⟩

/-! ### The rename command (C4) -/

/-- What a successful validation guarantees about the accepted name. -/
theorem validate_new_name_ok {input current name : String}
    (h : validate_new_name input current = Except.ok name) :
    name = trimChars input ∧ name ≠ "" ∧ name ≠ current ∧ name ≠ "." ∧ name ≠ ".." ∧
      ∀ ch ∈ name.data, ch ≠ '/' ∧ ch ≠ '\\' := by
  unfold validate_new_name at h
  split at h
  · exact absurd h (by simp)
  · next hemp =>
    split at h
    · exact absurd h (by simp)
    · next hunch =>
      split at h
      · exact absurd h (by simp)
      · next hdot =>
        split at h
        · exact absurd h (by simp)
        · next hsep =>
          have hn : trimChars input = name := by simpa using h
          have hne : trimChars input ≠ "" := fun he =>
            hemp ((String.isEmpty_iff (trimChars input)).mpr he)
          refine ⟨hn.symm, hn ▸ hne, ?_, ?_, ?_, ?_⟩
          · rw [← hn]
            by_cases hc : current = ""
            · rw [hc]; exact hne
            · intro heq
              exact hunch ⟨Bool.eq_false_iff.mpr fun h =>
                hc ((String.isEmpty_iff current).mp h), heq⟩
          · rw [← hn]; intro heq; exact hdot (Or.inl heq)
          · rw [← hn]; intro heq; exact hdot (Or.inr heq)
          · rw [← hn]
            intro ch hch
            constructor
            · intro he
              exact hsep (List.any_eq_true.mpr ⟨ch, hch, by simp [he]⟩)
            · intro he
              exact hsep (List.any_eq_true.mpr ⟨ch, hch, by simp [he]⟩)

/-- C4: rename succeeds only when a selection exists, the trimmed name is
non-empty, differs from the current name, is not `.`/`..`, holds no path
separator and no destination with that name exists; every error leaves
the state and the abstract current directory (source and destination
included) untouched, and a destination collision surfaces its specific
message. -/
theorem command_rename_claim (a : App) (fs : DirFs) (input : String) :
    ((a.command_rename input fs).1 = Except.ok () →
      ∃ entry, a.selected_entry = some entry ∧
        trimChars input ≠ "" ∧ trimChars input ≠ entry.name ∧
        trimChars input ≠ "." ∧ trimChars input ≠ ".." ∧
        (∀ ch ∈ (trimChars input).data, ch ≠ '/' ∧ ch ≠ '\\') ∧
        List.lookup (trimChars input) fs = none) ∧
    (∀ e, (a.command_rename input fs).1 = Except.error e →
      (a.command_rename input fs).2.1 = a ∧ (a.command_rename input fs).2.2 = fs) ∧
    (∀ entry name, a.selected_entry = some entry →
      validate_new_name input entry.name = Except.ok name →
      (List.lookup name fs).isSome = true →
      (a.command_rename input fs).1 =
          Except.error ("A file named '" ++ name ++ "' already exists") ∧
        (a.command_rename input fs).2.2 = fs) := by
  cases hsel : a.selected_entry with
  | none =>
    have hr : a.command_rename input fs = (Except.error "No selection to rename", a, fs) := by
      simp [App.command_rename, hsel]
    refine ⟨?_, ?_, ?_⟩
    · intro hok; rw [hr] at hok; exact absurd hok (by simp)
    · intro e _; rw [hr]; exact ⟨rfl, rfl⟩
    · intro entry name hsel2
      exact absurd hsel2 (by simp)
  | some entry =>
    cases hv : validate_new_name input entry.name with
    | error e =>
      have hr : a.command_rename input fs = (Except.error e, a, fs) := by
        simp [App.command_rename, hsel, hv]
      refine ⟨?_, ?_, ?_⟩
      · intro hok; rw [hr] at hok; exact absurd hok (by simp)
      · intro e' _; rw [hr]; exact ⟨rfl, rfl⟩
      · intro entry' name' hsel2 hv2 _
        have he : entry' = entry := by
          injection hsel2 with h; exact h.symm
        subst he
        rw [hv] at hv2
        exact absurd hv2 (by simp)
    | ok name =>
      obtain ⟨hn, hne, hnc, hd1, hd2, hsep⟩ := validate_new_name_ok hv
      subst hn
      by_cases hex : (List.lookup (trimChars input) fs).isSome
      · have hr : a.command_rename input fs =
            (Except.error ("A file named '" ++ trimChars input ++ "' already exists"), a, fs) := by
          simp [App.command_rename, hsel, hv, hex]
        refine ⟨?_, ?_, ?_⟩
        · intro hok; rw [hr] at hok; exact absurd hok (by simp)
        · intro e' _; rw [hr]; exact ⟨rfl, rfl⟩
        · intro entry' name' hsel2 hv2 hex2
          have he : entry' = entry := by
            injection hsel2 with h; exact h.symm
          subst he
          rw [hv] at hv2
          have hn' : name' = trimChars input := by
            injection hv2 with h; exact h.symm
          subst hn'
          rw [hr]
          exact ⟨rfl, rfl⟩
      · cases hren : dirRename fs entry.name (trimChars input) with
        | error e =>
          have hr : a.command_rename input fs = (Except.error e, a, fs) := by
            simp [App.command_rename, hsel, hv, hex, hren]
          refine ⟨?_, ?_, ?_⟩
          · intro hok; rw [hr] at hok; exact absurd hok (by simp)
          · intro e' _; rw [hr]; exact ⟨rfl, rfl⟩
          · intro entry' name' hsel2 hv2 hex2
            have he : entry' = entry := by
              injection hsel2 with h; exact h.symm
            subst he
            rw [hv] at hv2
            have hn' : name' = trimChars input := by
              injection hv2 with h; exact h.symm
            subst hn'
            exact absurd hex2 hex
        | ok fs2 =>
          refine ⟨?_, ?_, ?_⟩
          · intro _
            exact ⟨entry, rfl, hne, hnc, hd1, hd2, hsep,
              Option.not_isSome_iff_eq_none.mp hex⟩
          · intro e' herr
            have hr : a.command_rename input fs =
                (Except.ok (),
                  a.refresh_with_message true
                    ("Renamed " ++ entry.name ++ " -> " ++ trimChars input), fs2) := by
              simp [App.command_rename, hsel, hv, hex, hren]
            rw [hr] at herr
            exact absurd herr (by simp)
          · intro entry' name' hsel2 hv2 hex2
            have he : entry' = entry := by
              injection hsel2 with h; exact h.symm
            subst he
            rw [hv] at hv2
            have hn' : name' = trimChars input := by
              injection hv2 with h; exact h.symm
            subst hn'
            exact absurd hex2 hex

/-- Witness for C4: renaming the selected entry of a concrete state to a
colliding name fails with the specific message and leaves the abstract
directory unchanged. -/
theorem command_rename_claim_witness :
    app3.selected_entry =
        some { name := "docs", is_dir := true, size := none, modified := none } ∧
      validate_new_name "b.txt" "docs" = Except.ok "b.txt" ∧
      (List.lookup "b.txt" [("a.txt", 1), ("b.txt", 2)]).isSome = true ∧
      (app3.command_rename "b.txt" [("a.txt", 1), ("b.txt", 2)]).1 =
        Except.error ("A file named '" ++ "b.txt" ++ "' already exists") ∧
      (app3.command_rename "b.txt" [("a.txt", 1), ("b.txt", 2)]).2.2 =
        [("a.txt", 1), ("b.txt", 2)] :=
  have h := (command_rename_claim app3 [("a.txt", 1), ("b.txt", 2)] "b.txt").2.2
    { name := "docs", is_dir := true, size := none, modified := none } "b.txt"
    rfl rfl (by decide)
  ⟨rfl, rfl, by decide, h.1, h.2⟩

/-! ### The move command (C5) -/

/-- C5: once the selection and destination checks pass, the first
primitive call is always the atomic rename; a copy appears in the trace
only when that rename failed; and when the fallback's copy succeeds but
the removal fails, the command reports the removal error while the copied
destination stays in place (the source too) — nothing is rolled back. -/
theorem command_move_claim (a : App) (target : String) (fs : MvFs) (o : MvOracle)
    (entry : FileEntry) (hsel : a.selected_entry = some entry)
    (htrim : (trimChars target).isEmpty = false) (hdest : fs.dest = false) :
    (a.command_move target fs o).2.2.2.head? = some MvOp.rename ∧
    ((MvOp.copyDir ∈ (a.command_move target fs o).2.2.2 ∨
        MvOp.copyFile ∈ (a.command_move target fs o).2.2.2) → o.renameFails = true) ∧
    (o.renameFails = false →
      (a.command_move target fs o).1 = Except.ok () ∧
        (a.command_move target fs o).2.2.2 = [MvOp.rename] ∧
        (a.command_move target fs o).2.2.1 = { src := false, dest := true }) ∧
    (o.renameFails = true → o.copyFails = false → o.removeFails = true →
      (a.command_move target fs o).1 = Except.error ("removing " ++ entry.name) ∧
        (a.command_move target fs o).2.2.1.dest = true ∧
        (a.command_move target fs o).2.2.1.src = fs.src ∧
        (a.command_move target fs o).2.1 = a) := by
  cases hrf : o.renameFails <;> cases hcf : o.copyFails <;> cases hrm : o.removeFails <;>
      cases hd : entry.is_dir <;>
    simp_all [App.command_move, hsel, htrim, hdest]

/-- Witness for C5 at a concrete state: rename fails, the copy succeeds,
the removal fails — the command errors while the destination exists and
the source is still present. -/
theorem command_move_claim_witness :
    app3.selected_entry =
        some { name := "docs", is_dir := true, size := none, modified := none } ∧
      (trimChars "elsewhere").isEmpty = false ∧
      ({ src := true, dest := false } : MvFs).dest = false ∧
      (app3.command_move "elsewhere" { src := true, dest := false }
          { renameFails := true, copyFails := false, removeFails := true }).1 =
        Except.error ("removing " ++ "docs") ∧
      (app3.command_move "elsewhere" { src := true, dest := false }
          { renameFails := true, copyFails := false, removeFails := true }).2.2.1 =
        { src := true, dest := true } :=
  have h := (command_move_claim app3 "elsewhere" { src := true, dest := false }
      { renameFails := true, copyFails := false, removeFails := true }
      { name := "docs", is_dir := true, size := none, modified := none }
      rfl (by decide) rfl).2.2.2 rfl rfl rfl
  ⟨rfl, by decide, rfl, h.1, by
    have h2 := h.2.1
    have h3 := h.2.2.1
    cases hfs : (app3.command_move "elsewhere" { src := true, dest := false }
        { renameFails := true, copyFails := false, removeFails := true }).2.2.1
    simp_all⟩

/-! ### The search engine (C7) -/

/-- Characterisation of the first hit of a forward scan over
`List.range' s n`. -/
theorem find?_range'_eq_some_iff {p : Nat → Bool} {n : Nat} :
    ∀ {s k : Nat}, (List.range' s n).find? p = some k ↔
      s ≤ k ∧ k < s + n ∧ p k = true ∧ ∀ j, s ≤ j → j < k → p j = false := by
  induction n with
  | zero =>
    intro s k
    constructor
    · intro h
      simp at h
    · rintro ⟨h1, h2, h3, h4⟩
      omega
  | succ n ih =>
    intro s k
    rw [List.range'_succ]
    cases hp : p s with
    | true =>
      rw [List.find?_cons_of_pos _ hp]
      constructor
      · intro h
        have hk : s = k := by injection h
        subst hk
        exact ⟨Nat.le_refl s, by omega, hp, fun j h1 h2 => absurd h2 (by omega)⟩
      · rintro ⟨h1, h2, h3, h4⟩
        by_cases hk : k = s
        · subst hk; rfl
        · have hs : s < k := by omega
          have hps := h4 s (Nat.le_refl s) hs
          rw [hp] at hps
          exact absurd hps (by simp)
    | false =>
      rw [List.find?_cons_of_neg _ (by simp [hp])]
      rw [ih]
      constructor
      · rintro ⟨h1, h2, h3, h4⟩
        refine ⟨by omega, by omega, h3, fun j hj1 hj2 => ?_⟩
        rcases Nat.eq_or_lt_of_le hj1 with heq | hlt
        · rw [← heq]; exact hp
        · exact h4 j (by omega) hj2
      · rintro ⟨h1, h2, h3, h4⟩
        have hks : k ≠ s := by
          intro he
          rw [he, hp] at h3
          exact absurd h3 (by simp)
        exact ⟨by omega, by omega, h3, fun j hj1 hj2 => h4 j (by omega) hj2⟩

/-- Characterisation of the first hit of a forward scan over
`List.range n`. -/
theorem find?_range_eq_some_iff {p : Nat → Bool} {n k : Nat} :
    (List.range n).find? p = some k ↔
      k < n ∧ p k = true ∧ ∀ j, j < k → p j = false := by
  rw [List.range_eq_range', find?_range'_eq_some_iff]
  constructor
  · rintro ⟨h1, h2, h3, h4⟩
    exact ⟨by omega, h3, fun j hj => h4 j (by omega) hj⟩
  · rintro ⟨h1, h2, h3⟩
    exact ⟨by omega, by omega, h2, fun j _ hj => h3 j hj⟩

/-- `find_match` returns exactly the first cyclic hit: the returned index
is `(start + k) % len` for the least matching offset `k`. -/
theorem find_match_eq_some_iff {a : App} {q : String} {s i : Nat}
    (hne : a.entries ≠ []) :
    a.find_match q s = some i ↔
      ∃ k, k < a.entries.length ∧ i = (s + k) % a.entries.length ∧
        a.matchesAt q.toLower ((s + k) % a.entries.length) = true ∧
        ∀ j, j < k → a.matchesAt q.toLower ((s + j) % a.entries.length) = false := by
  unfold App.find_match
  rw [if_neg (by simp [List.isEmpty_iff, hne])]
  rw [Option.map_eq_some']
  constructor
  · rintro ⟨off, hoff, rfl⟩
    rw [find?_range_eq_some_iff] at hoff
    exact ⟨off, hoff.1, rfl, hoff.2.1, hoff.2.2⟩
  · rintro ⟨k, hk, rfl, hpk, hmin⟩
    exact ⟨k, find?_range_eq_some_iff.mpr ⟨hk, hpk, hmin⟩, rfl⟩

/-- `find_match` returns nothing exactly when no offset of the cyclic
scan matches. -/
theorem find_match_eq_none_iff {a : App} {q : String} {s : Nat}
    (hne : a.entries ≠ []) :
    a.find_match q s = none ↔
      ∀ k, k < a.entries.length →
        a.matchesAt q.toLower ((s + k) % a.entries.length) = false := by
  unfold App.find_match
  rw [if_neg (by simp [List.isEmpty_iff, hne])]
  rw [Option.map_eq_none', List.find?_eq_none]
  constructor
  · intro h k hk
    have hx := h k (List.mem_range.mpr hk)
    simpa using hx
  · intro h x hx
    have hk := h x (List.mem_range.mp hx)
    simp [hk]

/-- A cyclic scan of `len` offsets starting anywhere visits every index
below `len`. -/
theorem cyclic_cover {len s : Nat} (hlen : 0 < len) {p : Nat → Bool}
    (h : ∀ k, k < len → p ((s + k) % len) = false) :
    ∀ i, i < len → p i = false := by
  intro i hi
  have hmem : (i + len - s % len) % len < len := Nat.mod_lt _ hlen
  have e1 : (i + len - s % len) % len ≡ i + len - s % len [MOD len] :=
    Nat.mod_modEq _ _
  have e2 : s + (i + len - s % len) % len ≡ s % len + (i + len - s % len) [MOD len] :=
    Nat.ModEq.add (Nat.mod_modEq s len).symm e1
  have hr : s % len < len := Nat.mod_lt _ hlen
  have e4 : s % len + (i + len - s % len) = i + len := by omega
  rw [e4] at e2
  have e5 : (s + (i + len - s % len) % len) % len = (i + len) % len := e2
  have e6 : (i + len) % len = i := by
    rw [Nat.add_mod_right]
    exact Nat.mod_eq_of_lt hi
  have hmod : (s + (i + len - s % len) % len) % len = i := e5.trans e6
  have hx := h ((i + len - s % len) % len) hmem
  rw [hmod] at hx
  exact hx

/-- Counterexample to C7 as stated: on an empty entry list the committed
query is not recorded as `last_search`, and the reported status is "No
entries to search" rather than a no-match report. -/
theorem apply_search_empty_counterexample :
    appEmpty.entries = [] ∧
      (appEmpty.apply_search bp0 "a").last_search ≠ some "a" ∧
      (appEmpty.apply_search bp0 "a").status = "No entries to search" := by
  refine ⟨rfl, ?_, rfl⟩
  decide

/-- C7 (amended): on a non-empty entry list, apply records the query as
`last_search` and scans forward from the selection (inclusive) cyclically
for the first entry whose lowercased name contains the lowercased query,
moving the selection there; if no entry matches, the selection is
unchanged and "no match" is reported.  On an empty list the query is not
recorded and "No entries to search" is reported. -/
theorem apply_search_amended (bp : BuildPreview) (q : String) (a : App) :
    (a.entries = [] →
      a.apply_search bp q = { a with status := "No entries to search" }) ∧
    (a.entries ≠ [] →
      (a.apply_search bp q).last_search = some q ∧
      (a.apply_search bp q).entries = a.entries ∧
      ((∃ k, k < a.entries.length ∧
          (a.apply_search bp q).selected = (a.selected + k) % a.entries.length ∧
          a.matchesAt q.toLower ((a.selected + k) % a.entries.length) = true ∧
          (∀ j, j < k →
            a.matchesAt q.toLower ((a.selected + j) % a.entries.length) = false)) ∨
        ((∀ i, i < a.entries.length → a.matchesAt q.toLower i = false) ∧
          (a.apply_search bp q).selected = a.selected ∧
          (a.apply_search bp q).status = "No match for '" ++ q ++ "'"))) := by
  constructor
  · intro he
    simp [App.apply_search, he]
  · intro hne
    have hemp : a.entries.isEmpty = false := by simp [List.isEmpty_iff, hne]
    cases hm : ({ a with last_search := some q } : App).find_match q a.selected with
    | some index =>
      have hr : a.apply_search bp q = App.update_preview bp
          { a with
            last_search := some q
            selected := index
            status := "Match: " ++ (a.entries.getD index dummyEntry).name } := by
        simp [App.apply_search, hemp, hm]
      have hm' : a.find_match q a.selected = some index := hm
      obtain ⟨k, hk, hik, hpk, hmin⟩ := (find_match_eq_some_iff hne).mp hm'
      refine ⟨by rw [hr]; rfl, by rw [hr]; rfl, Or.inl ⟨k, hk, ?_, hpk, hmin⟩⟩
      rw [hr]
      exact hik
    | none =>
      have hr : a.apply_search bp q =
          { a with
            last_search := some q
            status := "No match for '" ++ q ++ "'" } := by
        simp [App.apply_search, hemp, hm]
      have hm' : a.find_match q a.selected = none := hm
      have hall := (find_match_eq_none_iff hne).mp hm'
      have hlen : 0 < a.entries.length := List.length_pos.mpr hne
      exact ⟨by rw [hr], by rw [hr],
        Or.inr ⟨fun i hi => cyclic_cover hlen hall i hi, by rw [hr], by rw [hr]⟩⟩

/-- Witness for the amended C7 on a concrete non-empty state whose list
holds no match for the query. -/
theorem apply_search_amended_witness :
    app3.entries ≠ [] ∧ (app3.apply_search bp0 "zzz").last_search = some "zzz" :=
  ⟨by decide, ((apply_search_amended bp0 "zzz" app3).2 (by decide)).1⟩

/-! ### Enter gating in Search and Command modes (C8) -/

/-- Applying a search never changes the input mode. -/
theorem apply_search_input_mode (bp : BuildPreview) (q : String) (a : App) :
    (a.apply_search bp q).input_mode = a.input_mode := by
  unfold App.apply_search
  split
  · rfl
  · split <;> rfl

/-- Counterexample to C8 as stated: in Search mode a whitespace-only
(hence blank but non-empty) buffer is committed on Enter — the mode
changes to Normal instead of staying in Search with inline feedback. -/
theorem search_enter_blank_counterexample :
    (trimChars " ").isEmpty = true ∧
      appSearchBlank.input_mode = InputMode.search " " none ∧
      (handle_search_mode bp0 Key.enter appSearchBlank).input_mode = InputMode.normal := by
  refine ⟨by decide, rfl, ?_⟩
  have h : handle_search_mode bp0 Key.enter appSearchBlank =
      (appSearchBlank.cancel_overlay).apply_search bp0 " " := rfl
  rw [h, apply_search_input_mode]
  rfl

/-- C8 (amended): in Command mode, Enter commits (mode reset to Normal,
buffer handed to the interpreter) only when the buffer is non-blank, an
empty or whitespace-only buffer leaving the mode unchanged with the
feedback "Enter a command"; in Search mode the gate tests only
emptiness — an empty buffer leaves the mode unchanged with "Enter a
search query", while any non-empty buffer, whitespace-only included, is
committed to the search engine and the mode resets to Normal. -/
theorem enter_commit_gating (bp : BuildPreview) (rc : String → App → App) (a : App)
    (buffer : String) (feedback : Option String) :
    (a.input_mode = InputMode.search buffer feedback →
      (buffer.isEmpty = true →
        handle_search_mode bp Key.enter a =
          { a with input_mode := InputMode.search buffer (some "Enter a search query") }) ∧
      (buffer.isEmpty = false →
        handle_search_mode bp Key.enter a = (a.cancel_overlay).apply_search bp buffer ∧
          (handle_search_mode bp Key.enter a).input_mode = InputMode.normal)) ∧
    (a.input_mode = InputMode.command buffer feedback →
      ((trimChars buffer).isEmpty = true →
        handle_command_mode rc Key.enter a =
          { a with input_mode := InputMode.command buffer (some "Enter a command") }) ∧
      ((trimChars buffer).isEmpty = false →
        handle_command_mode rc Key.enter a = rc buffer a.cancel_overlay)) := by
  constructor
  · intro hm
    constructor
    · intro hb
      simp [handle_search_mode, hm, hb, App.set_overlay_feedback]
    · intro hb
      have hr : handle_search_mode bp Key.enter a =
          (a.cancel_overlay).apply_search bp buffer := by
        simp [handle_search_mode, hm, hb]
      refine ⟨hr, ?_⟩
      rw [hr, apply_search_input_mode]
      rfl
  · intro hm
    constructor
    · intro hb
      simp [handle_command_mode, hm, hb, App.set_overlay_feedback]
    · intro hb
      simp [handle_command_mode, hm, hb]

/-- Witness for the amended C8: a whitespace-only Command buffer does not
commit and sets the inline feedback. -/
theorem enter_commit_gating_witness :
    appCommandBlank.input_mode = InputMode.command " " none ∧
      (trimChars " ").isEmpty = true ∧
      handle_command_mode runCommand0 Key.enter appCommandBlank =
        { appCommandBlank with
          input_mode := InputMode.command " " (some "Enter a command") } :=
  ⟨rfl, by decide,
    ((enter_commit_gating bp0 runCommand0 appCommandBlank " " none).2 rfl).1 (by decide)⟩
